import Mathlib

/-!
Verification of the feature-compilation subsystem (`fontbe/src/features.rs`)
and the coordinate serde representations (`fontdrasil/src/serde.rs`) of the
fontc repository, as a shallow embedding in Lean.

Conventions:
* Rust `f32`/`f64` values (normalized coordinates, kern values, region
  scalars) are modelled as exact rationals `ℚ`; evaluation-order rounding of
  IEEE floats is not modelled.
* Rust `i16` metric values are modelled as `Int`.
* A 4-byte `Tag` is modelled as a `String` (its `Display` form).
* Fallible Rust functions returning `Result` are modelled with `Except`;
  a `panic!`/`assert!` is modelled as a dedicated error variant.
* External effects (the real file system, the external fea compiler) are
  passed in as explicit function-typed parameters.
-/

/-- A 4-byte OpenType tag, modelled by its display string. -/
abbrev Tag := String

/-- Modelled from the spec: `fontdrasil::coords::NormalizedLocation` (not under
`src/`) is an ordered mapping from axis tag to a normalized coordinate.  It is
modelled as an association list; a canonical (BTreeMap-like) value is strictly
sorted by tag, expressed by `LocCanonical` where it matters. -/
abbrev Loc := List (Tag × ℚ)

/-- Canonical form of a location: strictly sorted by axis tag, as iteration
over the underlying ordered map would produce. -/
def LocCanonical (l : Loc) : Prop := l.Pairwise (fun a b => a.1 < b.1)

/-- Modelled from the spec: a per-axis (start, peak, end) influence triple of
a variation region (`fontir` `Tent`, not under `src/`). -/
structure Tent where
  start : ℚ
  peak : ℚ
  end_ : ℚ
deriving DecidableEq

/-- Modelled from the spec: `fontir`'s `VariationRegion` (not under `src/`),
a mapping from axis tag to tent. -/
abbrev Region := List (Tag × Tent)

/-- Look up the tent of one axis within a region (`VariationRegion::get`). -/
def regionGet (r : Region) (tag : Tag) : Option Tent :=
  (r.find? (fun p => p.1 = tag)).map Prod.snd

/-- Modelled from the spec: a region is "default" when every tent is
(0, 0, 0) (`VariationRegion::is_default`, not under `src/`). -/
def regionIsDefault (r : Region) : Bool :=
  r.all (fun p => p.2 = ⟨0, 0, 0⟩)

/-- The per-axis record of a `write_fonts` OpenType variation region
(start/peak/end coordinates), in `fvar` axis order. -/
structure RegionAxisCoords where
  start : ℚ
  peak : ℚ
  end_ : ℚ
deriving DecidableEq

/-- Modelled from the spec: `Tent::to_region_axis_coords` (not under `src/`)
carries the tent's three coordinates over to the OpenType record. -/
def Tent.toRegionAxisCoords (t : Tent) : RegionAxisCoords :=
  ⟨t.start, t.peak, t.end_⟩

/-- Modelled from the spec: `write_fonts::OtRound` (external crate), the
rounding primitive used for metric deltas: round to the nearest integer,
ties at .5 away from zero (spec section 4.1 step 4). -/
def otRound (q : ℚ) : ℤ :=
  if 0 ≤ q then ⌊q + 1/2⌋ else ⌈q - 1/2⌉

/-- Modelled from the spec: the persisted coordinate converter
(`fontdrasil::coords::CoordConverter`, not under `src/`).  Its effective
content is the ordered list of (user, design) examples — stored internally as
parallel `from`/`to` vectors — plus the default example index; derived inverse
caches are abstracted away. -/
structure CoordConverter where
  user_to_design_from : List ℚ
  user_to_design_to : List ℚ
  default_idx : Nat
deriving DecidableEq

/-- Modelled from the spec: `CoordConverter::new` builds a converter from an
ordered (user, design) example list and the default example index. -/
def CoordConverter.new (examples : List (ℚ × ℚ)) (default_idx : Nat) :
    CoordConverter :=
  ⟨examples.map Prod.fst, examples.map Prod.snd, default_idx⟩

/-- The `fontdrasil::types::Axis` record (field-for-field; coordinates in
user units, as `ℚ`). -/
structure Axis where
  name : String
  tag : Tag
  min : ℚ
  default : ℚ
  max : ℚ
  hidden : Bool
  converter : CoordConverter

/-- Modelled from the spec: the variation model of `StaticMetadata` (`fontir`,
not under `src/`).  Per spec section 2 it is queried for its default location,
for "is this location supported", for the per-region decomposition of sampled
values, and for a region's scalar weight at a location. -/
structure VariationModel where
  defaultLoc : Loc
  supports : Loc → Bool
  deltas : List (Loc × List ℚ) → Except String (List (Region × List ℚ))
  scalarAt : Region → Loc → ℚ

/-- The fields of `StaticMetadata` this subsystem reads: the ordered axis
list and the variation model. -/
structure StaticMetadata where
  axes : List Axis
  variation_model : VariationModel

/-- Errors raised by `resolve_variable_metric` (boxed `dyn Error` values in
the source): the unsupported-location error, the missing-tent error, an error
propagated from `VariationModel::deltas`, and the `assert!` on a region
contributing other than one value (a panic in the source). -/
inductive ResolveError where
  | unsupportedLocation (loc : Loc)
  | missingTent (tag : Tag)
  | modelError (msg : String)
  | assertionFailure (n : Nat)
deriving DecidableEq

instance {ε α : Type} [DecidableEq ε] [DecidableEq α] :
    DecidableEq (Except ε α) := fun a b =>
  match a, b with
  | .ok x, .ok y =>
    if h : x = y then .isTrue (by rw [h])
    else .isFalse (by intro hc; cases hc; exact h rfl)
  | .error x, .error y =>
    if h : x = y then .isTrue (by rw [h])
    else .isFalse (by intro hc; cases hc; exact h rfl)
  | .ok _, .error _ => .isFalse (by intro hc; cases hc)
  | .error _, .ok _ => .isFalse (by intro hc; cases hc)

/-- The support check of `resolve_variable_metric` (features.rs lines
173-177): every input location must be supported by the variation model. -/
def checkSupported (m : VariationModel) : List Loc → Except ResolveError Unit
  | [] => .ok ()
  | l :: rest =>
    if m.supports l then checkSupported m rest
    else .error (.unsupportedLocation l)

/-- The per-region single-value extraction of `resolve_variable_metric`
(features.rs lines 180-187).  The source `assert!(values.len() == 1)` panic is
modelled as the `assertionFailure` error. -/
def extractSingles :
    List (Region × List ℚ) → Except ResolveError (List (Region × ℚ))
  | [] => .ok []
  | (r, vs) :: rest =>
    match vs with
    | [v] => (extractSingles rest).map (fun tl => (r, v) :: tl)
    | _ => .error (.assertionFailure vs.length)

/-- The default-value computation of `resolve_variable_metric` (features.rs
lines 189-200): sum `scalar * delta` over the regions whose scalar at the
model's default location is non-zero. -/
def defaultValueSum (m : VariationModel) (deltas : List (Region × ℚ)) : ℚ :=
  (deltas.filterMap (fun rv =>
    let scaler := m.scalarAt rv.1 m.defaultLoc
    if scaler = 0 then none else some (scaler * rv.2))).sum

/-- The per-region tent list assembly of `resolve_variable_metric`
(features.rs lines 207-213): one tent per axis, in the font's declared axis
order; a missing tent is the `MissingTentError`. -/
def buildRegionAxes (r : Region) :
    List Axis → Except ResolveError (List RegionAxisCoords)
  | [] => .ok []
  | a :: rest =>
    match regionGet r a.tag with
    | none => .error (.missingTent a.tag)
    | some tent =>
      (buildRegionAxes r rest).map (fun tl => tent.toRegionAxisCoords :: tl)

/-- The deltas assembly of `resolve_variable_metric` (features.rs lines
203-218): for each non-default region, the tent list in axis order and the
rounded delta. -/
def buildDeltas (axes : List Axis) :
    List (Region × ℚ) → Except ResolveError (List (List RegionAxisCoords × ℤ))
  | [] => .ok []
  | (r, v) :: rest =>
    if regionIsDefault r then buildDeltas axes rest
    else
      match buildRegionAxes r axes with
      | .error e => .error e
      | .ok tents =>
        match buildDeltas axes rest with
        | .error e => .error e
        | .ok out => .ok ((tents, otRound v) :: out)

/-- The 1-dimensional point sequences built from the metric samples
(features.rs lines 166-169). -/
def pointSeqsOf (values : List (Loc × ℤ)) : List (Loc × List ℚ) :=
  values.map (fun pv => (pv.1, [(pv.2 : ℚ)]))

/-- Restatement of the spec's default-value formula (spec section 4.1 step 4):
the sum, over exactly the regions whose scalar weight at the model's default
location is non-zero, of weight times the region's unrounded delta. -/
def specDefaultValue (m : VariationModel) (singles : List (Region × ℚ)) : ℚ :=
  ((singles.filter (fun rv => decide (m.scalarAt rv.1 m.defaultLoc ≠ 0))).map
    (fun rv => m.scalarAt rv.1 m.defaultLoc * rv.2)).sum

/-- The one scalar each region contributes (the source asserts the per-region
value list is a singleton and takes its only element). -/
def singlesOf (ds : List (Region × List ℚ)) : List (Region × ℚ) :=
  ds.map (fun e => (e.1, e.2.headD 0))

/-- The tent list of a region in declared axis order, as the spec describes
it (section 4.1 step 5); total by defaulting, used only where every axis has
a tent. -/
def specRegionTents (axes : List Axis) (r : Region) : List RegionAxisCoords :=
  axes.map (fun a => ((regionGet r a.tag).getD ⟨0, 0, 0⟩).toRegionAxisCoords)

/-- `FeaVariationInfo::resolve_variable_metric` (features.rs lines 153-221):
check every sampled location is supported, decompose through the variation
model, compute the default value by summing weighted unrounded deltas and
rounding once, and build the per-region (tents, rounded delta) list over the
non-default regions. -/
def resolve_variable_metric (sm : StaticMetadata)
    (values : List (Loc × ℤ)) :
    Except ResolveError (ℤ × List (List RegionAxisCoords × ℤ)) :=
  let var_model := sm.variation_model
  let point_seqs := pointSeqsOf values
  (checkSupported var_model (point_seqs.map Prod.fst)).bind (fun _ =>
    (Except.mapError ResolveError.modelError
        (var_model.deltas point_seqs)).bind (fun ds =>
      (extractSingles ds).bind (fun deltas =>
        (buildDeltas sm.axes deltas).map (fun fears_deltas =>
          (otRound (defaultValueSum var_model deltas), fears_deltas)))))

/-- `crate::error::Error`, restricted to the variants this file raises. -/
inductive Error where
  | fileExpected (path : String)
  | ioError (msg : String)
  | feaCompileError (msg : String)
  | panicEmptyFeatures
deriving DecidableEq

/-- `fontir::ir::KernParticipant`: a bare glyph name or a group reference. -/
inductive KernParticipant where
  | glyph (name : String)
  | group (name : String)
deriving DecidableEq

/-- `KernParticipant::is_group`. -/
def KernParticipant.is_group : KernParticipant → Bool
  | .glyph _ => false
  | .group _ => true

/-- `fontir::ir::Kerning` (modelled from the spec, the type is not under
`src/`): ordered group map plus ordered pair-to-values map; each pair's
values map location to a kern value. -/
structure Kerning where
  groups : List (String × List String)
  kerns : List ((KernParticipant × KernParticipant) × List (Loc × ℚ))

/-- Modelled from the spec: `Kerning::is_empty` (not under `src/`) — an empty
`Kerning` has no groups and no kerns. -/
def Kerning.isEmpty (k : Kerning) : Bool :=
  k.groups.isEmpty && k.kerns.isEmpty

/-- The canonical key of a location for ordering: its (tag, coordinate)
pairs compared lexicographically, matching the derived `Ord` of an ordered
map keyed by tag. -/
def locKey (l : Loc) : List (Lex (Tag × ℚ)) :=
  l.map (fun p => toLex p)

/-- The total order on locations used when sorting the kerned location set
(`NormalizedLocation`'s derived `Ord`). -/
def locLE (a b : Loc) : Prop := locKey a ≤ locKey b

instance : DecidableRel locLE :=
  fun a b => inferInstanceAs (Decidable (locKey a ≤ locKey b))

instance : IsTotal Loc locLE :=
  ⟨fun a b => le_total (locKey a) (locKey b)⟩

instance : IsTrans Loc locLE :=
  ⟨fun _ _ _ hab hbc => le_trans hab hbc⟩

/-- The sorted set of every location referenced by any kern (features.rs
lines 332-334): collect into a set, then sort.  Sorting a duplicate-free
list by the total order `locLE` models `Vec::sort` by `Ord`. -/
def kernedLocationsOf (k : Kerning) : List Loc :=
  List.insertionSort locLE ((k.kerns.flatMap (fun kv => kv.2.map Prod.fst)).dedup)

/-- Rust `fea.remove(fea.len() - 1)`: drop the final character of the buffer
(always a 1-byte character at this call site). -/
def rustRemoveLast (s : String) : String := ⟨s.data.dropLast⟩

/-- Modelled from the spec: Rust's `Display` for the kern value / coordinate
numbers (`f32`).  Integral values print with no fractional part (`0`, `-40`);
the non-integral case stands in for Rust's decimal rendering. -/
def fmtNum (q : ℚ) : String :=
  if q.den = 1 then toString q.num else toString q

/-- `push_identifier` (features.rs lines 300-308): a glyph name verbatim, a
group name prefixed with `@`. -/
def push_identifier : KernParticipant → String
  | .glyph name => name
  | .group name => "@" ++ name

/-- `enumerated` (features.rs lines 310-317): glyph-to-class or
class-to-glyph pairs are prefixed with the `enum` keyword. -/
def enumerated (kp1 kp2 : KernParticipant) : Bool :=
  kp1.is_group.xor kp2.is_group

/-- One class declaration (features.rs lines 362-372): `@name = [members];`
with the trailing separator removed. -/
def groupClassText (name : String) (members : List String) : String :=
  rustRemoveLast ("@" ++ name ++ " = [" ++
    String.join (members.map (fun m => m ++ " "))) ++ "];\n"

/-- `BTreeMap::get` on a pair's value map: the value stored at exactly this
location, if any. -/
def lookupLoc (values : List (Loc × ℚ)) (l : Loc) : Option ℚ :=
  (values.find? (fun p => p.1 = l)).map Prod.snd

/-- The cached location string (features.rs lines 401-407): `tag=valuen`
joined with commas, in the location's stored axis order. -/
def locString (l : Loc) : String :=
  String.intercalate "," (l.map (fun p => p.1 ++ "=" ++ fmtNum p.2 ++ "n"))

/-- The per-pair value list (features.rs lines 393-412): for every kerned
location, `loc:value ` with the pair's value there, defaulted to `0.0` when
the pair has no entry at that location. -/
def pairValuesText (kernedLocations : List Loc) (values : List (Loc × ℚ)) :
    String :=
  String.join (kernedLocations.map (fun location =>
    locString location ++ ":" ++
      fmtNum ((lookupLoc values location).getD 0) ++ " "))

/-- One pos rule (features.rs lines 381-414): optional `enum ` prefix, the
two participants, and the value list with its trailing space removed. -/
def pairRuleText (kernedLocations : List Loc) (p1 p2 : KernParticipant)
    (values : List (Loc × ℚ)) : String :=
  rustRemoveLast ("  " ++ (if enumerated p1 p2 then "enum " else "") ++
    "pos " ++ push_identifier p1 ++ " " ++ push_identifier p2 ++ " (" ++
    pairValuesText kernedLocations values) ++ ");\n"

/-- The machine-generated marker the synthesized text starts with
(features.rs line 352). -/
def genMarker : String := "\n\n# fontc generated kerning\n\n"

/-- All class declarations, in the kerning IR's stored group order
(features.rs lines 362-372). -/
def classesText (k : Kerning) : String :=
  String.join (k.groups.map (fun g => groupClassText g.1 g.2))

/-- The `kern` feature block (features.rs lines 379-416), one pos rule per
pair in stored order. -/
def kernBlockText (k : Kerning) : String :=
  "feature kern \x7b\n" ++
    String.join (k.kerns.map (fun kv =>
      pairRuleText (kernedLocationsOf k) kv.1.1 kv.1.2 kv.2)) ++
    "\x7d kern;\n"

/-- `create_kerning_fea` (features.rs lines 330-419): the generated-by
marker, then — unless the kerning is empty — the class declarations and the
single `kern` feature block. -/
def create_kerning_fea (kerning : Kerning) : Except Error String :=
  if kerning.isEmpty then .ok genMarker
  else .ok (genMarker ++ classesText kerning ++ "\n\n" ++ kernBlockText kerning)

/-- A naive substring test on character lists, used to state the absence of
class declarations and feature blocks in a generated text. -/
def hasSubstr (hay needle : List Char) : Bool :=
  hay.tails.any (fun t => needle.isPrefixOf t)

/-- The cause carried by a `fea_rs` `SourceLoadError`: the
`NoIncludePathError`, a wrapped `crate::error::Error` (file expected), or an
underlying I/O failure. -/
inductive SourceLoadCause where
  | noIncludePath
  | fileExpected (path : String)
  | ioError (msg : String)
deriving DecidableEq

/-- `fea_rs::parse::SourceLoadError`: the offending relative path plus the
wrapped cause. -/
structure SourceLoadError where
  path : String
  cause : SourceLoadCause
deriving DecidableEq

/-- The ambient file system operations this subsystem performs, passed in
explicitly: `Path::join`, `Path::canonicalize`, `Path::is_file`,
`fs::read_to_string` and `fs::write`. -/
structure FileSystem where
  join : String → String → String
  canonicalize : String → Except String String
  isFile : String → Bool
  readToString : String → Except String String
  write : String → String → Except String Unit

/-- `InMemoryResolver` (features.rs lines 41-47): the synthetic content path,
the in-memory content, and the optional include directory. -/
structure InMemoryResolver where
  content_path : String
  content : String
  include_dir : Option String
deriving DecidableEq

/-- `InMemoryResolver::get_contents` (features.rs lines 49-75): the synthetic
path resolves to the in-memory content; any other path requires an include
directory, is joined and canonicalized there, must name a regular file, and
is then read. -/
def InMemoryResolver.get_contents (fs : FileSystem) (r : InMemoryResolver)
    (rel_path : String) : Except SourceLoadError String :=
  if rel_path = r.content_path then .ok r.content
  else
    match r.include_dir with
    | none => .error ⟨rel_path, .noIncludePath⟩
    | some include_dir =>
      match fs.canonicalize (fs.join include_dir rel_path) with
      | .error e => .error ⟨rel_path, .ioError e⟩
      | .ok path =>
        if ¬ fs.isFile path then .error ⟨rel_path, .fileExpected path⟩
        else
          match fs.readToString path with
          | .error e => .error ⟨rel_path, .ioError e⟩
          | .ok contents => .ok contents

/-- `fontir::ir::Features` (modelled from the spec, the type is not under
`src/`): no authored features, a file-backed source, or an in-memory source;
the latter two carry an optional include directory. -/
inductive Features where
  | empty
  | file (fea_file : String) (include_dir : Option String)
  | memory (fea_content : String) (include_dir : Option String)
deriving DecidableEq

/-- `integrate_kerning` (features.rs lines 421-446): merge the synthesized
kerning text into the authored features, always yielding `Memory`; a
file-backed source is read from disk first. -/
def integrate_kerning (fs : FileSystem) (features : Features)
    (kern_fea : String) : Except Error Features :=
  match features with
  | .empty => .ok (.memory kern_fea none)
  | .memory fea_content include_dir =>
    .ok (.memory (fea_content ++ kern_fea) include_dir)
  | .file fea_file include_dir =>
    match fs.readToString fea_file with
    | .error e => .error (.ioError e)
    | .ok fea_content => .ok (.memory (fea_content ++ kern_fea) include_dir)

/-- The up-to-three binary table fragments produced by the external feature
compiler (`fea_rs::compile::Compilation`), each an opaque byte blob. -/
structure Compilation where
  gpos : Option String
  gsub : Option String
  gdef : Option String
deriving DecidableEq

/-- The configuration handed to the external compiler: root source
identifier, glyph map, optional custom resolver, optional project root. -/
structure CompilerConfig where
  root : String
  glyphs : List String
  resolver : Option InMemoryResolver
  project_root : Option String

/-- The external feature compiler (`fea_rs::Compiler`), specified only at
its boundary: it maps a configuration to table fragments or a compile
error. -/
def ExtCompiler := CompilerConfig → Except String Compilation

/-- `create_glyphmap` (features.rs lines 290-298): the glyph order as a glyph
map (the empty-order warning is a log, not a result). -/
def create_glyphmap (glyph_order : List String) : List String := glyph_order

/-- `FeatureWork::compile` (features.rs lines 229-267): build the compiler
for a file- or memory-backed source and run it; invoking it with
`Features::Empty` is the source's `panic!`, modelled as the dedicated
`panicEmptyFeatures` error. -/
def FeatureWork.compile (ext : ExtCompiler) (features : Features)
    (glyph_order : List String) : Except Error Compilation :=
  match features with
  | .file fea_file include_dir =>
    match ext ⟨fea_file, glyph_order, none, include_dir⟩ with
    | .error e => .error (.feaCompileError e)
    | .ok c => .ok c
  | .memory fea_content include_dir =>
    match ext ⟨"", glyph_order, some ⟨"", fea_content, include_dir⟩,
        include_dir⟩ with
    | .error e => .error (.feaCompileError e)
    | .ok c => .ok c
  | .empty => .error .panicEmptyFeatures

/-- The build flags this work unit consults. -/
structure Flags where
  emit_debug : Bool
  emit_ir : Bool

/-- The shared build state the work unit reads, plus the marker path it may
write (`context.persistent_storage.paths.target_file(Features)`). -/
structure Context where
  glyph_order : List String
  kerning : Kerning
  features : Features
  flags : Flags
  marker_path : String

/-- The tables the work unit writes into shared state (each slot written
only when the compiler produced that fragment). -/
structure ExecOutput where
  gpos : Option String
  gsub : Option String
  gdef : Option String
deriving DecidableEq

/-- `FeatureWork::exec` (features.rs lines 470-529): integrate non-empty
kerning into the authored features, compile unless the effective features
are `Empty`, record the produced tables, and optionally write the completion
marker.  The best-effort debug-fea write (log-only on failure) has no effect
on the result and is not modelled. -/
def FeatureWork.exec (fs : FileSystem) (ext : ExtCompiler) (ctx : Context) :
    Except Error ExecOutput :=
  (if ctx.kerning.isEmpty then .ok ctx.features
    else (create_kerning_fea ctx.kerning).bind (fun kern_fea =>
      integrate_kerning fs ctx.features kern_fea)).bind (fun features =>
    (if features = .empty then
        (.ok ⟨none, none, none⟩ : Except Error ExecOutput)
      else (FeatureWork.compile ext features
          (create_glyphmap ctx.glyph_order)).map
        (fun c => ⟨c.gpos, c.gsub, c.gdef⟩)).bind (fun out =>
      if ctx.flags.emit_ir then
        ((fs.write ctx.marker_path "1").mapError Error.ioError).map
          (fun _ => out)
      else .ok out))

/-- `CoordConverterSerdeRepr` (serde.rs lines 5-9): default example index and
the ordered (user, design) pair list. -/
structure CoordConverterSerdeRepr where
  default_idx : Nat
  user_to_design : List (ℚ × ℚ)
deriving DecidableEq

/-- `From<CoordConverter> for CoordConverterSerdeRepr` (serde.rs lines
25-39): zip the internal parallel user/design vectors back into pairs. -/
def coordConverterToRepr (c : CoordConverter) : CoordConverterSerdeRepr :=
  ⟨c.default_idx, c.user_to_design_from.zip c.user_to_design_to⟩

/-- `From<CoordConverterSerdeRepr> for CoordConverter` (serde.rs lines
14-23): rebuild through `CoordConverter::new`. -/
def coordConverterFromRepr (r : CoordConverterSerdeRepr) : CoordConverter :=
  CoordConverter.new r.user_to_design r.default_idx

/-- `BTreeMap` insertion keyed by tag: keep strictly-sorted order, replacing
the value on an equal key. -/
def insertLoc {T : Type} : List (Tag × T) → (Tag × T) → List (Tag × T)
  | [], p => [p]
  | q :: rest, p =>
    if p.1 < q.1 then p :: q :: rest
    else if p.1 = q.1 then p :: rest
    else q :: insertLoc rest p

/-- Collecting an iterator of (tag, value) pairs into a `BTreeMap`:
left-to-right insertion. -/
def btreeFromList {T : Type} (l : List (Tag × T)) : List (Tag × T) :=
  l.foldl insertLoc []

/-- `From<Location> for LocationSerdeRepr` (serde.rs lines 47-51): iterate
the ordered map into its pair list (the identity on the canonical list
model). -/
def locationToRepr {T : Type} (l : List (Tag × T)) : List (Tag × T) := l

/-- `From<LocationSerdeRepr> for Location` (serde.rs lines 41-45): collect
the pair list back into an ordered map. -/
def locationFromRepr {T : Type} (r : List (Tag × T)) : List (Tag × T) :=
  btreeFromList r

/-- A single-axis normalized location on `wght`. -/
def locN (q : ℚ) : Loc := [("wght", q)]

/-- The default region of the concrete example model. -/
def exR0 : Region := [("wght", ⟨0, 0, 0⟩)]

/-- The light-side region of the concrete example model. -/
def exRneg : Region := [("wght", ⟨-1, -1, 0⟩)]

/-- The bold-side region of the concrete example model. -/
def exRpos : Region := [("wght", ⟨0, 1, 1⟩)]

/-- The decomposition the example model reports: one scalar per region. -/
def exDs : List (Region × List ℚ) := [(exR0, [15]), (exRneg, [-5]), (exRpos, [5])]

/-- A concrete example variation model over the `wght` axis, supporting the
three master locations, mirroring the source's `resolve_kern` test setup. -/
def exModel : VariationModel where
  defaultLoc := locN 0
  supports := fun l => decide (l = locN (-1) ∨ l = locN 0 ∨ l = locN 1)
  deltas := fun _ => .ok exDs
  scalarAt := fun r l =>
    if r = exR0 then 1
    else if r = exRneg then (if l = locN (-1) then 1 else 0)
    else if r = exRpos then (if l = locN 1 then 1 else 0)
    else 0

/-- A concrete example converter: three (user, design) examples, default in
the middle. -/
def exConverter : CoordConverter :=
  CoordConverter.new [(300, 0), (400, 1), (700, 2)] 1

/-- The concrete example `wght` axis. -/
def exAxisWght : Axis :=
  ⟨"Weight", "wght", 300, 400, 700, false, exConverter⟩

/-- Concrete example static metadata: one axis, the example model. -/
def exStaticMetadata : StaticMetadata := ⟨[exAxisWght], exModel⟩

/-- Concrete metric samples at the three supported locations. -/
def exValues : List (Loc × ℤ) := [(locN (-1), 10), (locN 0, 15), (locN 1, 20)]

/-- Concrete metric samples including an unsupported location. -/
def exValuesBad : List (Loc × ℤ) := [(locN 2, 12)]

/-- A concrete file system: canonicalization is the identity, no path is a
regular file, reads succeed with fixed text, writes succeed. -/
def exFs : FileSystem where
  join := fun d r => d ++ "/" ++ r
  canonicalize := fun p => .ok p
  isFile := fun _ => false
  readToString := fun _ => .ok "authored;\n"
  write := fun _ _ => .ok ()

/-- A concrete overlay with no include directory. -/
def exResolver : InMemoryResolver := ⟨"", "generated", none⟩

/-- A concrete overlay with an include directory configured. -/
def exResolverInc : InMemoryResolver := ⟨"", "generated", some "inc"⟩

/-- A concrete external compiler that always produces a GPOS fragment. -/
def exExt : ExtCompiler := fun _ => .ok ⟨some "GPOS", none, none⟩

/-- A concrete kerning value: one group, a glyph-to-group pair valued at the
default location, and a glyph-to-glyph pair valued at the bold location. -/
def exKerning : Kerning where
  groups := [("public.kern1.A", ["A", "Aacute"])]
  kerns :=
    [((.glyph "A", .group "public.kern1.A"), [(locN 0, 10)]),
     ((.glyph "A", .glyph "V"), [(locN 1, -40)])]

/-- A concrete work-unit context. -/
def exCtx : Context :=
  ⟨["A", "Aacute", "V"], exKerning, .empty, ⟨false, false⟩, "features-marker"⟩

/-- A concrete canonical location list (strictly sorted tags). -/
def exLoc : List (Tag × ℚ) := [("wdth", 1/2), ("wght", 1)]

/-! ## Properties of the variation metric resolver -/

theorem checkSupported_ok_of (m : VariationModel) (locs : List Loc)
    (h : ∀ l ∈ locs, m.supports l = true) : checkSupported m locs = .ok () := by
  induction locs with
  | nil => rfl
  | cons x rest ih =>
    have hx := h x (List.mem_cons_self x rest)
    simp only [checkSupported, hx, if_true]
    exact ih (fun l hl => h l (List.mem_cons_of_mem _ hl))

theorem checkSupported_error_shape (m : VariationModel) (locs : List Loc)
    (e : ResolveError) (h : checkSupported m locs = .error e) :
    ∃ l ∈ locs, m.supports l = false ∧ e = .unsupportedLocation l := by
  induction locs with
  | nil => simp [checkSupported] at h
  | cons x rest ih =>
    by_cases hx : m.supports x = true
    · simp only [checkSupported, hx, if_true] at h
      obtain ⟨l, hl, hsup, he⟩ := ih h
      exact ⟨l, List.mem_cons_of_mem _ hl, hsup, he⟩
    · simp only [checkSupported, hx, if_false] at h
      refine ⟨x, List.mem_cons_self x rest, by simpa using hx, ?_⟩
      cases h
      rfl

theorem checkSupported_error_of (m : VariationModel) (locs : List Loc)
    (h : ∃ l ∈ locs, m.supports l = false) :
    ∃ l, m.supports l = false ∧
      checkSupported m locs = .error (.unsupportedLocation l) := by
  induction locs with
  | nil => simp at h
  | cons x rest ih =>
    by_cases hx : m.supports x = true
    · obtain ⟨l, hl, hsup⟩ := h
      rcases List.mem_cons.mp hl with rfl | hl'
      · rw [hx] at hsup; cases hsup
      · obtain ⟨l', h1, h2⟩ := ih ⟨l, hl', hsup⟩
        exact ⟨l', h1, by simpa only [checkSupported, hx, if_true] using h2⟩
    · have hx' : m.supports x = false := by simpa using hx
      exact ⟨x, hx', by simp only [checkSupported, hx', Bool.false_eq_true,
        if_false]⟩

theorem extractSingles_error_shape (ds : List (Region × List ℚ))
    (e : ResolveError) (h : extractSingles ds = .error e) :
    ∃ n, e = .assertionFailure n := by
  induction ds with
  | nil => simp [extractSingles] at h
  | cons p rest ih =>
    obtain ⟨r, vs⟩ := p
    match vs, h with
    | [], h => exact ⟨0, by cases h; rfl⟩
    | [v], h =>
      simp only [extractSingles, Except.map] at h
      cases hrest : extractSingles rest with
      | error e' => rw [hrest] at h; cases h; exact ih hrest
      | ok tl => rw [hrest] at h; cases h
    | v :: w :: tl, h => exact ⟨(v :: w :: tl).length, by cases h; rfl⟩

theorem extractSingles_ok_shape (ds : List (Region × List ℚ))
    (out : List (Region × ℚ)) (h : extractSingles ds = .ok out) :
    out = singlesOf ds := by
  induction ds generalizing out with
  | nil => cases h; rfl
  | cons p rest ih =>
    obtain ⟨r, vs⟩ := p
    match vs, h with
    | [], h => cases h
    | [v], h =>
      simp only [extractSingles, Except.map] at h
      cases hrest : extractSingles rest with
      | error e' => rw [hrest] at h; cases h
      | ok tl =>
        rw [hrest] at h
        cases h
        simp [singlesOf, ih tl hrest, List.headD]
    | v :: w :: tl, h => cases h

theorem extractSingles_ok_of_len (ds : List (Region × List ℚ))
    (h : ∀ p ∈ ds, p.2.length = 1) :
    extractSingles ds = .ok (singlesOf ds) := by
  induction ds with
  | nil => rfl
  | cons p rest ih =>
    obtain ⟨r, vs⟩ := p
    have hlen := h (r, vs) (List.mem_cons_self _ _)
    match vs, hlen with
    | [v], _ =>
      have := ih (fun q hq => h q (List.mem_cons_of_mem _ hq))
      simp [extractSingles, Except.map, this, singlesOf, List.headD]

theorem buildRegionAxes_error_shape (r : Region) (axes : List Axis)
    (e : ResolveError) (h : buildRegionAxes r axes = .error e) :
    ∃ t, e = .missingTent t := by
  induction axes with
  | nil => simp [buildRegionAxes] at h
  | cons a rest ih =>
    simp only [buildRegionAxes] at h
    cases hget : regionGet r a.tag with
    | none => rw [hget] at h; cases h; exact ⟨a.tag, rfl⟩
    | some tent =>
      rw [hget] at h
      simp only [Except.map] at h
      cases hrest : buildRegionAxes r rest with
      | error e' => rw [hrest] at h; cases h; exact ih hrest
      | ok tl => rw [hrest] at h; cases h

theorem buildRegionAxes_ok_shape (r : Region) (axes : List Axis)
    (ts : List RegionAxisCoords) (h : buildRegionAxes r axes = .ok ts) :
    ts = specRegionTents axes r := by
  induction axes generalizing ts with
  | nil => cases h; rfl
  | cons a rest ih =>
    simp only [buildRegionAxes] at h
    cases hget : regionGet r a.tag with
    | none => rw [hget] at h; cases h
    | some tent =>
      rw [hget] at h
      simp only [Except.map] at h
      cases hrest : buildRegionAxes r rest with
      | error e' => rw [hrest] at h; cases h
      | ok tl =>
        rw [hrest] at h
        cases h
        simp [specRegionTents, ih tl hrest, hget]

theorem buildRegionAxes_error_iff (r : Region) (axes : List Axis) :
    (∃ e, buildRegionAxes r axes = .error e) ↔
      ∃ a ∈ axes, regionGet r a.tag = none := by
  induction axes with
  | nil => simp [buildRegionAxes]
  | cons a rest ih =>
    simp only [buildRegionAxes]
    cases hget : regionGet r a.tag with
    | none =>
      simp only [List.mem_cons]
      exact ⟨fun _ => ⟨a, Or.inl rfl, hget⟩, fun _ => ⟨.missingTent a.tag, rfl⟩⟩
    | some tent =>
      constructor
      · rintro ⟨e, he⟩
        simp only [Except.map] at he
        cases hrest : buildRegionAxes r rest with
        | error e' =>
          obtain ⟨a', ha', hget'⟩ := ih.mp ⟨e', hrest⟩
          exact ⟨a', List.mem_cons_of_mem _ ha', hget'⟩
        | ok tl => rw [hrest] at he; cases he
      · rintro ⟨a', ha', hget'⟩
        rcases List.mem_cons.mp ha' with rfl | ha''
        · rw [hget] at hget'; cases hget'
        · obtain ⟨e, he⟩ := ih.mpr ⟨a', ha'', hget'⟩
          exact ⟨e, by simp [Except.map, he]⟩

theorem buildDeltas_error_shape (axes : List Axis) (ds : List (Region × ℚ))
    (e : ResolveError) (h : buildDeltas axes ds = .error e) :
    ∃ t, e = .missingTent t := by
  induction ds with
  | nil => simp [buildDeltas] at h
  | cons p rest ih =>
    obtain ⟨r, v⟩ := p
    simp only [buildDeltas] at h
    by_cases hdef : regionIsDefault r = true
    · rw [if_pos hdef] at h; exact ih h
    · rw [if_neg hdef] at h
      cases hra : buildRegionAxes r axes with
      | error e' =>
        rw [hra] at h; cases h
        exact buildRegionAxes_error_shape r axes _ hra
      | ok tents =>
        rw [hra] at h
        cases hrest : buildDeltas axes rest with
        | error e' => rw [hrest] at h; cases h; exact ih hrest
        | ok out => rw [hrest] at h; cases h

theorem buildDeltas_ok_shape (axes : List Axis) (ds : List (Region × ℚ))
    (out : List (List RegionAxisCoords × ℤ))
    (h : buildDeltas axes ds = .ok out) :
    out = (ds.filter (fun rv => ! regionIsDefault rv.1)).map
      (fun rv => (specRegionTents axes rv.1, otRound rv.2)) := by
  induction ds generalizing out with
  | nil => cases h; rfl
  | cons p rest ih =>
    obtain ⟨r, v⟩ := p
    simp only [buildDeltas] at h
    by_cases hdef : regionIsDefault r = true
    · rw [if_pos hdef] at h
      simpa [List.filter, hdef] using ih out h
    · rw [if_neg hdef] at h
      cases hra : buildRegionAxes r axes with
      | error e' => rw [hra] at h; cases h
      | ok tents =>
        rw [hra] at h
        cases hrest : buildDeltas axes rest with
        | error e' => rw [hrest] at h; cases h
        | ok out' =>
          rw [hrest] at h
          cases h
          have hb : regionIsDefault r = false := by simpa using hdef
          simp [List.filter, hb, ih out' hrest,
            buildRegionAxes_ok_shape r axes tents hra]

theorem buildDeltas_error_iff (axes : List Axis) (ds : List (Region × ℚ)) :
    (∃ e, buildDeltas axes ds = .error e) ↔
      ∃ rv ∈ ds, regionIsDefault rv.1 = false ∧
        ∃ a ∈ axes, regionGet rv.1 a.tag = none := by
  induction ds with
  | nil => simp [buildDeltas]
  | cons p rest ih =>
    obtain ⟨r, v⟩ := p
    simp only [buildDeltas]
    by_cases hdef : regionIsDefault r = true
    · rw [if_pos hdef]
      rw [ih]
      constructor
      · rintro ⟨rv, hrv, hx⟩
        exact ⟨rv, List.mem_cons_of_mem _ hrv, hx⟩
      · rintro ⟨rv, hrv, hne, hx⟩
        rcases List.mem_cons.mp hrv with rfl | hrv'
        · rw [hdef] at hne; cases hne
        · exact ⟨rv, hrv', hne, hx⟩
    · rw [if_neg hdef]
      have hb : regionIsDefault r = false := by simpa using hdef
      cases hra : buildRegionAxes r axes with
      | error e' =>
        constructor
        · intro _
          obtain ⟨a, ha, hget⟩ := (buildRegionAxes_error_iff r axes).mp ⟨e', hra⟩
          exact ⟨(r, v), List.mem_cons_self _ _, hb, a, ha, hget⟩
        · intro _; exact ⟨e', rfl⟩
      | ok tents =>
        constructor
        · rintro ⟨e, he⟩
          cases hrest : buildDeltas axes rest with
          | error e'' =>
            obtain ⟨rv, hrv, hx⟩ := ih.mp ⟨e'', hrest⟩
            exact ⟨rv, List.mem_cons_of_mem _ hrv, hx⟩
          | ok out => rw [hrest] at he; cases he
        · rintro ⟨rv, hrv, hne, a, ha, hget⟩
          rcases List.mem_cons.mp hrv with rfl | hrv'
          · obtain ⟨e, he⟩ := (buildRegionAxes_error_iff r axes).mpr ⟨a, ha, hget⟩
            rw [hra] at he; cases he
          · obtain ⟨e, he⟩ := ih.mpr ⟨rv, hrv', hne, a, ha, hget⟩
            rw [he]
            exact ⟨e, rfl⟩

theorem defaultValueSum_eq_spec (m : VariationModel)
    (ds : List (Region × ℚ)) : defaultValueSum m ds = specDefaultValue m ds := by
  induction ds with
  | nil => rfl
  | cons p rest ih =>
    by_cases hz : m.scalarAt p.1 m.defaultLoc = 0
    · simp [defaultValueSum, specDefaultValue, List.filterMap, List.filter,
        hz] at ih ⊢
      exact ih
    · simp [defaultValueSum, specDefaultValue, List.filterMap, List.filter,
        hz] at ih ⊢
      rw [ih]


theorem except_bind_ok {α β ε : Type} (a : α) (f : α → Except ε β) :
    (Except.ok a : Except ε α).bind f = f a := rfl

theorem except_bind_error {α β ε : Type} (e : ε) (f : α → Except ε β) :
    (Except.error e : Except ε α).bind f = .error e := rfl

theorem except_map_ok {α β ε : Type} (a : α) (f : α → β) :
    (Except.ok a : Except ε α).map f = .ok (f a) := rfl

theorem except_map_error {α β ε : Type} (e : ε) (f : α → β) :
    (Except.error e : Except ε α).map f = .error e := rfl

theorem except_mapError_ok {α ε ε' : Type} (a : α) (f : ε → ε') :
    (Except.ok a : Except ε α).mapError f = .ok a := rfl

theorem except_mapError_error {α ε ε' : Type} (e : ε) (f : ε → ε') :
    (Except.error e : Except ε α).mapError f = .error (f e) := rfl

theorem map_fst_pointSeqsOf (values : List (Loc × ℤ)) :
    (pointSeqsOf values).map Prod.fst = values.map Prod.fst := by
  simp [pointSeqsOf]

/-- C1: For every input map from normalized locations to integer metric
samples, if any location in the map is not supported by the static metadata's
variation model then `resolve_variable_metric` fails with the
unsupported-location error (and, the result being an `Except`, produces no
partial (default, deltas) result); if every location is supported, that error
is not raised. -/
theorem c1_unsupported_location (sm : StaticMetadata)
    (values : List (Loc × ℤ)) :
    ((∀ lv ∈ values, sm.variation_model.supports lv.1 = true) →
      ∀ l, resolve_variable_metric sm values ≠
        .error (.unsupportedLocation l))
    ∧ ((∃ lv ∈ values, sm.variation_model.supports lv.1 = false) →
      ∃ l, sm.variation_model.supports l = false ∧
        resolve_variable_metric sm values =
          .error (.unsupportedLocation l)) := by
  constructor
  · intro h l hcontra
    have hcs : checkSupported sm.variation_model
        ((pointSeqsOf values).map Prod.fst) = .ok () := by
      apply checkSupported_ok_of
      intro l' hl'
      rw [map_fst_pointSeqsOf] at hl'
      obtain ⟨lv, hlv, rfl⟩ := List.mem_map.mp hl'
      exact h lv hlv
    simp only [resolve_variable_metric, hcs, except_bind_ok] at hcontra
    cases hd : sm.variation_model.deltas (pointSeqsOf values) with
    | error e =>
      rw [hd, except_mapError_error, except_bind_error] at hcontra
      simp at hcontra
    | ok ds =>
      rw [hd, except_mapError_ok, except_bind_ok] at hcontra
      cases hes : extractSingles ds with
      | error e =>
        rw [hes, except_bind_error] at hcontra
        obtain ⟨n, rfl⟩ := extractSingles_error_shape ds e hes
        simp at hcontra
      | ok singles =>
        rw [hes, except_bind_ok] at hcontra
        cases hbd : buildDeltas sm.axes singles with
        | error e =>
          rw [hbd, except_map_error] at hcontra
          obtain ⟨t, rfl⟩ := buildDeltas_error_shape sm.axes singles e hbd
          simp at hcontra
        | ok fears => rw [hbd, except_map_ok] at hcontra; simp at hcontra
  · intro h
    obtain ⟨lv, hlv, hsup⟩ := h
    obtain ⟨l, hl, herr⟩ := checkSupported_error_of sm.variation_model
      ((pointSeqsOf values).map Prod.fst)
      ⟨lv.1, by rw [map_fst_pointSeqsOf]; exact List.mem_map_of_mem _ hlv, hsup⟩
    refine ⟨l, hl, ?_⟩
    simp only [resolve_variable_metric, herr, except_bind_error]

/-- C2: For every input whose locations are all supported, the default value
returned by `resolve_variable_metric` equals the sum, over exactly those
regions whose scalar weight at the model's default location is non-zero, of
weight times the region's unrounded delta, rounded to the nearest integer
exactly once after the whole summation with ties at .5 away from zero
(`otRound`).  Numbers are modelled as exact rationals in place of `f32`. -/
theorem c2_default_value (sm : StaticMetadata) (values : List (Loc × ℤ))
    (ds : List (Region × List ℚ)) (d : ℤ)
    (out : List (List RegionAxisCoords × ℤ))
    (hds : sm.variation_model.deltas (pointSeqsOf values) = .ok ds)
    (hok : resolve_variable_metric sm values = .ok (d, out)) :
    d = otRound (specDefaultValue sm.variation_model (singlesOf ds)) := by
  simp only [resolve_variable_metric, hds, except_mapError_ok] at hok
  cases hcs : checkSupported sm.variation_model
      ((pointSeqsOf values).map Prod.fst) with
  | error e => rw [hcs, except_bind_error] at hok; simp at hok
  | ok u =>
    rw [hcs, except_bind_ok, except_bind_ok] at hok
    cases hes : extractSingles ds with
    | error e => rw [hes, except_bind_error] at hok; simp at hok
    | ok singles =>
      rw [hes, except_bind_ok] at hok
      cases hbd : buildDeltas sm.axes singles with
      | error e => rw [hbd, except_map_error] at hok; simp at hok
      | ok fears =>
        rw [hbd, except_map_ok] at hok
        have h1 : d = otRound (defaultValueSum sm.variation_model singles) := by
          cases hok
          rfl
        rw [h1, defaultValueSum_eq_spec,
          extractSingles_ok_shape ds singles hes]

/-- C3: Under the hypotheses that every sampled location is supported and the
model decomposed the samples into one scalar per region, resolution fails
with the missing-tent error exactly when some non-default region produced by
the model has no tent for some font-declared axis; and on success the deltas
list contains exactly the non-default regions, each with its tent list
assembled per-axis in the font's declared axis order. -/
theorem c3_deltas_regions (sm : StaticMetadata) (values : List (Loc × ℤ))
    (ds : List (Region × List ℚ))
    (hsupp : ∀ lv ∈ values, sm.variation_model.supports lv.1 = true)
    (hds : sm.variation_model.deltas (pointSeqsOf values) = .ok ds)
    (hlen : ∀ p ∈ ds, p.2.length = 1) :
    ((∃ t, resolve_variable_metric sm values = .error (.missingTent t)) ↔
      ∃ rv ∈ ds, regionIsDefault rv.1 = false ∧
        ∃ a ∈ sm.axes, regionGet rv.1 a.tag = none)
    ∧ (∀ d out, resolve_variable_metric sm values = .ok (d, out) →
      out = ((singlesOf ds).filter
          (fun rv => ! regionIsDefault rv.1)).map
        (fun rv => (specRegionTents sm.axes rv.1, otRound rv.2))) := by
  have hcs : checkSupported sm.variation_model
      ((pointSeqsOf values).map Prod.fst) = .ok () := by
    apply checkSupported_ok_of
    intro l' hl'
    rw [map_fst_pointSeqsOf] at hl'
    obtain ⟨lv, hlv, rfl⟩ := List.mem_map.mp hl'
    exact hsupp lv hlv
  have hes : extractSingles ds = .ok (singlesOf ds) :=
    extractSingles_ok_of_len ds hlen
  have hre : resolve_variable_metric sm values =
      (buildDeltas sm.axes (singlesOf ds)).map (fun fears =>
        (otRound (defaultValueSum sm.variation_model (singlesOf ds)),
          fears)) := by
    simp only [resolve_variable_metric, hcs, hds, hes, except_mapError_ok,
      except_bind_ok]
  have hdefarg : ∀ rv ∈ ds, (rv.1, rv.2.headD 0) ∈ singlesOf ds := by
    intro rv hrv
    simp only [singlesOf]
    exact List.mem_map_of_mem _ hrv
  constructor
  · constructor
    · rintro ⟨t, ht⟩
      rw [hre] at ht
      cases hbd : buildDeltas sm.axes (singlesOf ds) with
      | error e =>
        obtain ⟨rv', hrv', hne, a, ha, hget⟩ :=
          (buildDeltas_error_iff sm.axes (singlesOf ds)).mp ⟨e, hbd⟩
        obtain ⟨p, hp, hpe⟩ := List.mem_map.mp (by
          simpa only [singlesOf] using hrv')
        refine ⟨p, hp, ?_, a, ha, ?_⟩
        · rw [← hpe] at hne
          simpa using hne
        · rw [← hpe] at hget
          simpa using hget
      | ok fears => rw [hbd, except_map_ok] at ht; simp at ht
    · rintro ⟨rv, hrv, hne, a, ha, hget⟩
      have hmem : ∃ rv' ∈ singlesOf ds, regionIsDefault rv'.1 = false ∧
          ∃ a ∈ sm.axes, regionGet rv'.1 a.tag = none :=
        ⟨(rv.1, rv.2.headD 0), hdefarg rv hrv, by simpa using hne, a, ha,
          by simpa using hget⟩
      obtain ⟨e, he⟩ := (buildDeltas_error_iff sm.axes (singlesOf ds)).mpr hmem
      obtain ⟨t, rfl⟩ := buildDeltas_error_shape _ _ _ he
      exact ⟨t, by rw [hre, he, except_map_error]⟩
  · intro d out hok
    rw [hre] at hok
    cases hbd : buildDeltas sm.axes (singlesOf ds) with
    | error e => rw [hbd, except_map_error] at hok; simp at hok
    | ok fears =>
      rw [hbd, except_map_ok] at hok
      have hfo : fears = out := by cases hok; rfl
      rw [← hfo]
      exact buildDeltas_ok_shape sm.axes (singlesOf ds) fears hbd

theorem resolve_ex_eval : resolve_variable_metric exStaticMetadata exValues =
    .ok (15, [([⟨-1, -1, 0⟩], -5), ([⟨0, 1, 1⟩], 5)]) := by
  have hcs : checkSupported exStaticMetadata.variation_model
      ((pointSeqsOf exValues).map Prod.fst) = .ok () := by decide
  have hds : exStaticMetadata.variation_model.deltas (pointSeqsOf exValues) =
      .ok exDs := rfl
  have hsing : singlesOf exDs = [(exR0, 15), (exRneg, -5), (exRpos, 5)] := rfl
  have hes : extractSingles exDs = .ok [(exR0, 15), (exRneg, -5), (exRpos, 5)] := by
    rw [extractSingles_ok_of_len exDs (by decide), hsing]
  have hsum : defaultValueSum exStaticMetadata.variation_model
      [(exR0, 15), (exRneg, -5), (exRpos, 5)] = 15 := by
    norm_num [defaultValueSum, exStaticMetadata, exModel, exR0, exRneg, exRpos,
      locN, List.filterMap]
  have hbra1 : buildRegionAxes exRneg [exAxisWght] = .ok [⟨-1, -1, 0⟩] := by decide
  have hbra2 : buildRegionAxes exRpos [exAxisWght] = .ok [⟨0, 1, 1⟩] := by decide
  have hot1 : otRound (-5) = -5 := by norm_num [otRound, Int.ceil_neg]
  have hot2 : otRound 5 = 5 := by norm_num [otRound]
  have hot3 : otRound 15 = 15 := by norm_num [otRound]
  have hbd : buildDeltas exStaticMetadata.axes
      [(exR0, 15), (exRneg, -5), (exRpos, 5)] =
      .ok [([⟨-1, -1, 0⟩], -5), ([⟨0, 1, 1⟩], 5)] := by
    have hd0 : regionIsDefault exR0 = true := by decide
    have hd1 : regionIsDefault exRneg = false := by decide
    have hd2 : regionIsDefault exRpos = false := by decide
    show buildDeltas [exAxisWght] _ = _
    rw [buildDeltas, if_pos hd0, buildDeltas, if_neg (by simp [hd1]), hbra1,
      buildDeltas, if_neg (by simp [hd2]), hbra2, buildDeltas, hot1, hot2]
  simp only [resolve_variable_metric]
  rw [hcs, except_bind_ok, hds, except_mapError_ok, except_bind_ok, hes,
    except_bind_ok, hbd, except_map_ok, hsum, hot3]

theorem c1_unsupported_location_witness :
    (∀ l, resolve_variable_metric exStaticMetadata exValues ≠
      .error (.unsupportedLocation l))
    ∧ (∃ l, exStaticMetadata.variation_model.supports l = false ∧
      resolve_variable_metric exStaticMetadata exValuesBad =
        .error (.unsupportedLocation l)) :=
  ⟨(c1_unsupported_location exStaticMetadata exValues).1 (by decide),
   (c1_unsupported_location exStaticMetadata exValuesBad).2 (by decide)⟩

theorem c2_default_value_witness :
    (15 : ℤ) = otRound (specDefaultValue exStaticMetadata.variation_model
      (singlesOf exDs)) :=
  c2_default_value exStaticMetadata exValues exDs 15
    [([⟨-1, -1, 0⟩], -5), ([⟨0, 1, 1⟩], 5)] rfl resolve_ex_eval

theorem c3_deltas_regions_witness :
    ((∃ t, resolve_variable_metric exStaticMetadata exValues =
        .error (.missingTent t)) ↔
      ∃ rv ∈ exDs, regionIsDefault rv.1 = false ∧
        ∃ a ∈ exStaticMetadata.axes, regionGet rv.1 a.tag = none)
    ∧ (∀ d out, resolve_variable_metric exStaticMetadata exValues =
        .ok (d, out) →
      out = ((singlesOf exDs).filter (fun rv => ! regionIsDefault rv.1)).map
        (fun rv => (specRegionTents exStaticMetadata.axes rv.1,
          otRound rv.2))) :=
  c3_deltas_regions exStaticMetadata exValues exDs (by decide) rfl (by decide)

/-! ## Properties of the kerning feature synthesizer -/

theorem string_data_append (s t : String) : (s ++ t).data = s.data ++ t.data :=
  rfl

/-- C6: `create_kerning_fea` applied to an empty `Kerning` returns
successfully, and the returned text is exactly the machine-generated comment
block: it begins with the machine-generated comment marker and contains no
class declaration and no kern feature block. -/
theorem c6_empty_kerning (k : Kerning) (h : k.isEmpty = true) :
    create_kerning_fea k = .ok genMarker
    ∧ "\n\n# fontc generated kerning".data <+: genMarker.data
    ∧ hasSubstr genMarker.data "@".data = false
    ∧ hasSubstr genMarker.data "feature kern".data = false := by
  refine ⟨?_, by decide, by decide, by decide⟩
  simp [create_kerning_fea, h]

theorem c6_empty_kerning_witness :
    create_kerning_fea ⟨[], []⟩ = .ok genMarker
    ∧ "\n\n# fontc generated kerning".data <+: genMarker.data
    ∧ hasSubstr genMarker.data "@".data = false
    ∧ hasSubstr genMarker.data "feature kern".data = false :=
  c6_empty_kerning ⟨[], []⟩ rfl

/-- C4: For every non-empty `Kerning`, the synthesized feature text gives
each kerning pair one value entry per location in the sorted, duplicate-free
union of all locations referenced by any kern; when a pair's own value map
has no entry at such a location the emitted value is the literal `0`. -/
theorem c4_kern_values (k : Kerning) (h : k.isEmpty = false) :
    (∀ l, l ∈ kernedLocationsOf k ↔
      ∃ kv ∈ k.kerns, l ∈ kv.2.map Prod.fst)
    ∧ List.Sorted locLE (kernedLocationsOf k)
    ∧ (kernedLocationsOf k).Nodup
    ∧ create_kerning_fea k =
      .ok (genMarker ++ classesText k ++ "\n\n" ++ kernBlockText k)
    ∧ ∀ values, pairValuesText (kernedLocationsOf k) values =
      String.join ((kernedLocationsOf k).map (fun l =>
        locString l ++ ":" ++
          (match lookupLoc values l with
            | some v => fmtNum v
            | none => "0") ++ " ")) := by
  refine ⟨?_, ?_, ?_, ?_, ?_⟩
  · intro l
    simp only [kernedLocationsOf]
    rw [(List.perm_insertionSort locLE _).mem_iff, List.mem_dedup,
      List.mem_flatMap]
  · exact List.sorted_insertionSort locLE _
  · exact ((List.perm_insertionSort locLE _).nodup_iff).mpr
      (List.nodup_dedup _)
  · simp [create_kerning_fea, h]
  · intro values
    apply congrArg String.join
    apply List.map_congr_left
    intro l _
    cases hlk : lookupLoc values l with
    | some v => simp
    | none =>
      show locString l ++ ":" ++ fmtNum ((Option.getD none 0)) ++ " " = _
      rw [show fmtNum (Option.getD none 0) = "0" from rfl]

theorem c4_kern_values_witness :
    (∀ l, l ∈ kernedLocationsOf exKerning ↔
      ∃ kv ∈ exKerning.kerns, l ∈ kv.2.map Prod.fst)
    ∧ List.Sorted locLE (kernedLocationsOf exKerning)
    ∧ (kernedLocationsOf exKerning).Nodup
    ∧ create_kerning_fea exKerning =
      .ok (genMarker ++ classesText exKerning ++ "\n\n" ++
        kernBlockText exKerning)
    ∧ ∀ values, pairValuesText (kernedLocationsOf exKerning) values =
      String.join ((kernedLocationsOf exKerning).map (fun l =>
        locString l ++ ":" ++
          (match lookupLoc values l with
            | some v => fmtNum v
            | none => "0") ++ " ")) :=
  c4_kern_values exKerning rfl

/-- C5: In the synthesized feature text, a kerning pair's pos rule is
prefixed with the `enum` keyword exactly when one participant is a glyph and
the other a group, in either order; two glyphs or two groups carry no such
prefix. -/
theorem c5_enum_keyword (locs : List Loc) (p1 p2 : KernParticipant)
    (values : List (Loc × ℚ)) :
    ((pairRuleText locs p1 p2 values).data.take 7 = "  enum ".data) ↔
      ((p1.is_group = true ∧ p2.is_group = false) ∨
        (p1.is_group = false ∧ p2.is_group = true)) := by
  have hdata : (pairRuleText locs p1 p2 values).data =
      (("  " ++ (if enumerated p1 p2 then "enum " else "") ++ "pos " ++
        push_identifier p1 ++ " " ++ push_identifier p2 ++ " (" ++
        pairValuesText locs values).data).dropLast ++ ");\n".data := rfl
  by_cases henum : enumerated p1 p2 = true
  · have hrhs : (p1.is_group = true ∧ p2.is_group = false) ∨
        (p1.is_group = false ∧ p2.is_group = true) := by
      cases hg1 : p1.is_group <;> cases hg2 : p2.is_group
      · simp [enumerated, hg1, hg2] at henum
      · exact Or.inr ⟨rfl, rfl⟩
      · exact Or.inl ⟨rfl, rfl⟩
      · simp [enumerated, hg1, hg2] at henum
    refine iff_of_true ?_ hrhs
    rw [hdata, if_pos henum]
    rfl
  · have hrhs : ¬ ((p1.is_group = true ∧ p2.is_group = false) ∨
        (p1.is_group = false ∧ p2.is_group = true)) := by
      have hb : enumerated p1 p2 = false := by simpa using henum
      rintro (⟨h1, h2⟩ | ⟨h1, h2⟩) <;> simp [enumerated, h1, h2] at hb
    refine iff_of_false ?_ hrhs
    intro hc
    rw [hdata, if_neg henum] at hc
    have h2 := congrArg (fun l => l[2]?) hc
    have h3 : (some 'p' : Option Char) = some 'e' := h2
    exact absurd h3 (by decide)

theorem c5_enum_keyword_witness :
    (((pairRuleText [locN 0] (.glyph "A") (.group "K") []).data.take 7 =
        "  enum ".data) ↔
      (((KernParticipant.glyph "A").is_group = true ∧
          (KernParticipant.group "K").is_group = false) ∨
        ((KernParticipant.glyph "A").is_group = false ∧
          (KernParticipant.group "K").is_group = true)))
    ∧ (((pairRuleText [locN 0] (.glyph "A") (.glyph "V") []).data.take 7 =
        "  enum ".data) ↔
      (((KernParticipant.glyph "A").is_group = true ∧
          (KernParticipant.glyph "V").is_group = false) ∨
        ((KernParticipant.glyph "A").is_group = false ∧
          (KernParticipant.glyph "V").is_group = true))) :=
  ⟨c5_enum_keyword [locN 0] (.glyph "A") (.group "K") [],
   c5_enum_keyword [locN 0] (.glyph "A") (.glyph "V") []⟩

/-! ## Properties of the source overlay, the features merge and the work unit -/

/-- C7: The overlay's `get_contents` returns the stored in-memory content
verbatim for the synthetic root path; any other relative path fails with the
no-include-path error when no include directory is configured, and with the
file-expected error when the canonicalized joined path is not a regular
file. -/
theorem c7_get_contents (fs : FileSystem) (r : InMemoryResolver)
    (rel_path : String) :
    (InMemoryResolver.get_contents fs r r.content_path = .ok r.content)
    ∧ (rel_path ≠ r.content_path → r.include_dir = none →
      InMemoryResolver.get_contents fs r rel_path =
        .error ⟨rel_path, .noIncludePath⟩)
    ∧ (∀ d p, rel_path ≠ r.content_path → r.include_dir = some d →
      fs.canonicalize (fs.join d rel_path) = .ok p → fs.isFile p = false →
      InMemoryResolver.get_contents fs r rel_path =
        .error ⟨rel_path, .fileExpected p⟩) := by
  refine ⟨?_, ?_, ?_⟩
  · simp [InMemoryResolver.get_contents]
  · intro h1 h2
    simp [InMemoryResolver.get_contents, h1, h2]
  · intro d p h1 h2 hcan hisf
    simp [InMemoryResolver.get_contents, h1, h2, hcan, hisf]

theorem c7_get_contents_witness :
    (InMemoryResolver.get_contents exFs exResolver exResolver.content_path =
      .ok exResolver.content)
    ∧ (InMemoryResolver.get_contents exFs exResolver "kern.fea" =
      .error ⟨"kern.fea", .noIncludePath⟩)
    ∧ (InMemoryResolver.get_contents exFs exResolverInc "kern.fea" =
      .error ⟨"kern.fea", .fileExpected "inc/kern.fea"⟩) :=
  ⟨(c7_get_contents exFs exResolver "kern.fea").1,
   (c7_get_contents exFs exResolver "kern.fea").2.1 (by decide) rfl,
   (c7_get_contents exFs exResolverInc "kern.fea").2.2 "inc" "inc/kern.fea"
     (by decide) rfl rfl rfl⟩

/-- C8: `integrate_kerning` always yields `Features::Memory` on success:
`Empty` becomes `Memory` holding the kerning text, `Memory` appends the
kerning text after the existing content, `File` appends it after the text
read from disk; the original include directory is preserved in the `Memory`
and `File` cases. -/
theorem c8_integrate_kerning (fs : FileSystem) (kern_fea : String) :
    (integrate_kerning fs .empty kern_fea = .ok (.memory kern_fea none))
    ∧ (∀ c d, integrate_kerning fs (.memory c d) kern_fea =
      .ok (.memory (c ++ kern_fea) d))
    ∧ (∀ p d t, fs.readToString p = .ok t →
      integrate_kerning fs (.file p d) kern_fea =
        .ok (.memory (t ++ kern_fea) d))
    ∧ (∀ f out, integrate_kerning fs f kern_fea = .ok out →
      ∃ c d, out = .memory c d) := by
  refine ⟨rfl, fun c d => rfl, ?_, ?_⟩
  · intro p d t h
    simp [integrate_kerning, h]
  · intro f out h
    cases f with
    | empty => cases h; exact ⟨kern_fea, none, rfl⟩
    | memory c d => cases h; exact ⟨c ++ kern_fea, d, rfl⟩
    | file p d =>
      simp only [integrate_kerning] at h
      cases hr : fs.readToString p with
      | error e => rw [hr] at h; cases h
      | ok t =>
        rw [hr] at h
        cases h
        exact ⟨t ++ kern_fea, d, rfl⟩

theorem c8_integrate_kerning_witness :
    (integrate_kerning exFs .empty "K" = .ok (.memory "K" none))
    ∧ (integrate_kerning exFs (.memory "abc;" (some "inc")) "K" =
      .ok (.memory ("abc;" ++ "K") (some "inc")))
    ∧ (integrate_kerning exFs (.file "f.fea" (some "inc")) "K" =
      .ok (.memory ("authored;\n" ++ "K") (some "inc")))
    ∧ (∀ f out, integrate_kerning exFs f "K" = .ok out →
      ∃ c d, out = .memory c d) :=
  ⟨(c8_integrate_kerning exFs "K").1,
   (c8_integrate_kerning exFs "K").2.1 "abc;" (some "inc"),
   (c8_integrate_kerning exFs "K").2.2.1 "f.fea" (some "inc") "authored;\n" rfl,
   (c8_integrate_kerning exFs "K").2.2.2⟩

theorem create_kerning_fea_ok (k : Kerning) :
    ∃ s, create_kerning_fea k = .ok s := by
  unfold create_kerning_fea
  split
  · exact ⟨genMarker, rfl⟩
  · exact ⟨_, rfl⟩

theorem integrate_kerning_error_shape (fs : FileSystem) (f : Features)
    (kern_fea : String) (e : Error)
    (h : integrate_kerning fs f kern_fea = .error e) :
    ∃ msg, e = .ioError msg := by
  cases f with
  | empty => cases h
  | memory c d => cases h
  | file p d =>
    simp only [integrate_kerning] at h
    cases hr : fs.readToString p with
    | error msg => rw [hr] at h; cases h; exact ⟨msg, rfl⟩
    | ok t => rw [hr] at h; cases h

theorem compile_nonempty_error_shape (ext : ExtCompiler) (f : Features)
    (go : List String) (e : Error) (hf : f ≠ .empty)
    (h : FeatureWork.compile ext f go = .error e) :
    ∃ msg, e = .feaCompileError msg := by
  cases f with
  | empty => exact absurd rfl hf
  | file p d =>
    simp only [FeatureWork.compile] at h
    cases hx : ext ⟨p, go, none, d⟩ with
    | error msg => rw [hx] at h; cases h; exact ⟨msg, rfl⟩
    | ok c => rw [hx] at h; cases h
  | memory c d =>
    simp only [FeatureWork.compile] at h
    cases hx : ext ⟨"", go, some ⟨"", c, d⟩, d⟩ with
    | error msg => rw [hx] at h; cases h; exact ⟨msg, rfl⟩
    | ok c' => rw [hx] at h; cases h

theorem marker_stage_no_panic (fs : FileSystem) (ctx : Context)
    (out : ExecOutput) :
    (if ctx.flags.emit_ir then
      ((fs.write ctx.marker_path "1").mapError Error.ioError).map
        (fun _ => out)
    else .ok out) ≠ .error .panicEmptyFeatures := by
  by_cases he : ctx.flags.emit_ir
  · rw [if_pos he]
    cases hw : fs.write ctx.marker_path "1" with
    | error e =>
      rw [except_mapError_error, except_map_error]
      simp
    | ok u => rw [except_mapError_ok, except_map_ok]; simp
  · rw [if_neg he]; simp

theorem exec_tail_no_panic (fs : FileSystem) (ext : ExtCompiler)
    (ctx : Context) (features : Features) :
    ((if features = .empty then
        (.ok ⟨none, none, none⟩ : Except Error ExecOutput)
      else (FeatureWork.compile ext features
          (create_glyphmap ctx.glyph_order)).map
        (fun c => ⟨c.gpos, c.gsub, c.gdef⟩)).bind (fun out =>
      if ctx.flags.emit_ir then
        ((fs.write ctx.marker_path "1").mapError Error.ioError).map
          (fun _ => out)
      else .ok out)) ≠ .error .panicEmptyFeatures := by
  intro hcontra
  by_cases hf : features = .empty
  · rw [if_pos hf, except_bind_ok] at hcontra
    exact marker_stage_no_panic fs ctx ⟨none, none, none⟩ hcontra
  · rw [if_neg hf] at hcontra
    cases hc : FeatureWork.compile ext features
        (create_glyphmap ctx.glyph_order) with
    | error e =>
      rw [hc, except_map_error, except_bind_error] at hcontra
      obtain ⟨msg, rfl⟩ := compile_nonempty_error_shape ext features _ e hf hc
      simp at hcontra
    | ok c =>
      rw [hc, except_map_ok, except_bind_ok] at hcontra
      exact marker_stage_no_panic fs ctx ⟨c.gpos, c.gsub, c.gdef⟩ hcontra

/-- C10: `FeatureWork::compile` panics (modelled as the dedicated
`panicEmptyFeatures` error) when invoked with `Features::Empty`, and
`FeatureWork::exec` invokes `compile` only behind the not-`Empty` check, so
the panic branch is unreachable through `exec` for every file system,
external compiler and context. -/
theorem c10_empty_panic_unreachable :
    (∀ (ext : ExtCompiler) (go : List String),
      FeatureWork.compile ext .empty go = .error .panicEmptyFeatures)
    ∧ (∀ (fs : FileSystem) (ext : ExtCompiler) (ctx : Context),
      FeatureWork.exec fs ext ctx ≠ .error .panicEmptyFeatures) := by
  refine ⟨fun ext go => rfl, ?_⟩
  intro fs ext ctx hcontra
  simp only [FeatureWork.exec] at hcontra
  by_cases hk : ctx.kerning.isEmpty = true
  · rw [if_pos hk, except_bind_ok] at hcontra
    exact exec_tail_no_panic fs ext ctx ctx.features hcontra
  · rw [if_neg hk] at hcontra
    obtain ⟨s, hs⟩ := create_kerning_fea_ok ctx.kerning
    rw [hs, except_bind_ok] at hcontra
    cases hi : integrate_kerning fs ctx.features s with
    | error e =>
      rw [hi, except_bind_error] at hcontra
      obtain ⟨msg, rfl⟩ := integrate_kerning_error_shape fs ctx.features s e hi
      simp at hcontra
    | ok features =>
      rw [hi, except_bind_ok] at hcontra
      exact exec_tail_no_panic fs ext ctx features hcontra

theorem c10_empty_panic_unreachable_witness :
    FeatureWork.compile exExt .empty ["A"] = .error .panicEmptyFeatures
    ∧ FeatureWork.exec exFs exExt exCtx ≠ .error .panicEmptyFeatures :=
  ⟨c10_empty_panic_unreachable.1 exExt ["A"],
   c10_empty_panic_unreachable.2 exFs exExt exCtx⟩

/-! ## Round-trip of the persisted coordinate representations -/

theorem insertLoc_append {T : Type} (acc : List (Tag × T)) (p : Tag × T)
    (h : ∀ q ∈ acc, q.1 < p.1) : insertLoc acc p = acc ++ [p] := by
  induction acc with
  | nil => rfl
  | cons q rest ih =>
    have hq := h q (List.mem_cons_self _ _)
    rw [insertLoc, if_neg (not_lt_of_gt hq), if_neg (ne_of_gt hq),
      ih (fun q' hq' => h q' (List.mem_cons_of_mem _ hq'))]
    simp

theorem foldl_insertLoc_sorted {T : Type} (l : List (Tag × T)) :
    ∀ acc, ((acc ++ l).Pairwise (fun a b => a.1 < b.1)) →
      l.foldl insertLoc acc = acc ++ l := by
  induction l with
  | nil => intro acc _; simp
  | cons p rest ih =>
    intro acc h
    rw [List.foldl_cons]
    have hacc : ∀ q ∈ acc, q.1 < p.1 := by
      intro q hq
      exact (List.pairwise_append.mp h).2.2 q hq p (List.mem_cons_self _ _)
    rw [insertLoc_append acc p hacc]
    rw [ih (acc ++ [p]) (by rw [List.append_assoc]; simpa using h)]
    simp

/-- C9: serializing then deserializing a coordinate converter reproduces its
effective mapping (the (user, design) example list and the default example
index), and serializing then deserializing a canonical location reproduces
its tag-to-coordinate mapping. -/
theorem c9_serde_roundtrip :
    (∀ c : CoordConverter,
      c.user_to_design_from.length = c.user_to_design_to.length →
      coordConverterFromRepr (coordConverterToRepr c) = c)
    ∧ (∀ (T : Type) (l : List (Tag × T)),
      l.Pairwise (fun a b => a.1 < b.1) →
      locationFromRepr (locationToRepr l) = l) := by
  constructor
  · intro c hlen
    obtain ⟨uf, ut, di⟩ := c
    simp only [coordConverterToRepr, coordConverterFromRepr,
      CoordConverter.new, CoordConverter.mk.injEq]
    simp only at hlen
    exact ⟨List.map_fst_zip uf ut (le_of_eq hlen),
      List.map_snd_zip uf ut (ge_of_eq hlen), trivial⟩
  · intro T l h
    show btreeFromList (locationToRepr l) = l
    rw [locationToRepr, btreeFromList]
    exact foldl_insertLoc_sorted l [] (by simpa using h)

theorem c9_serde_roundtrip_witness :
    (coordConverterFromRepr (coordConverterToRepr exConverter) = exConverter)
    ∧ locationFromRepr (locationToRepr exLoc) = exLoc :=
  ⟨c9_serde_roundtrip.1 exConverter rfl,
   c9_serde_roundtrip.2 ℚ exLoc (by
     simp only [exLoc, List.pairwise_cons, List.not_mem_nil, false_implies,
       implies_true, List.Pairwise.nil, and_true, List.mem_singleton,
       forall_eq]
     rw [String.lt_iff_toList_lt]
     decide)⟩
